import Mathlib

/-!
Verification of the KPI-calculator core (business-day calendar, interval
clip/merge engine, KPI orchestration) against its natural-language
specification.

Shallow embedding conventions:
- A `datetime` is embedded as a `Nat`: the number of seconds since
  0001-01-01 00:00 (proleptic Gregorian).  Day index `t / 86400` therefore
  has weekday `dayIndex % 7` with Monday = 0, matching Python's
  `date.weekday()` (0001-01-01 is a Monday).
- The pluggable national-holiday provider (the external `holidays` package,
  not part of the repository) is embedded as an abstract predicate
  `hol : Nat → Bool` on day indices: `hol d = true` iff calendar day `d`
  is in the configured national-holiday set.
- Evidence entries are embedded structurally: the Python code stores
  formatted timestamp strings produced by `strftime` (a thin adapter
  excluded from the core); the embedding stores the underlying timestamps,
  with `clipped = none` standing for the absent "clipped" key.
-/

namespace KpiCalc

/-! ## IntervalEngine (src/kpi_calc/intervals.py) -/

/-- `Interval` from intervals.py: `{start, end}` over naive datetimes. -/
structure Interval where
  start : Nat
  «end» : Nat
deriving DecidableEq

/-- `Interval.is_valid`: `end > start`. -/
def Interval.is_valid (i : Interval) : Bool :=
  decide (i.start < i.«end»)

/-- `Interval.clip`: clip to `[window_start, window_end]`; `None` when the
interval lies entirely before/after the window or the intersection is
degenerate. -/
def Interval.clip (i : Interval) (window_start window_end : Nat) : Option Interval :=
  if i.«end» ≤ window_start ∨ i.start ≥ window_end then none
  else
    let clipped : Interval := ⟨max i.start window_start, min i.«end» window_end⟩
    if clipped.is_valid then some clipped else none

/-- The loop body of `merge_intervals`: `cur` plays the role of the current
last element of the Python `merged` list, the remaining sorted intervals are
folded into it (extend when `cur.start ≤ last.end`, else start a new group). -/
def merge_fold (cur : Interval) : List Interval → List Interval
  | [] => [cur]
  | x :: xs =>
    if x.start ≤ cur.«end» then merge_fold ⟨cur.start, max cur.«end» x.«end»⟩ xs
    else cur :: merge_fold x xs

/-- One insertion step of a stable ascending sort by `start`: `x` (arriving
later in input order) is placed after every already-sorted interval whose
start is `≤ x.start`. -/
def insert_by_start (x : Interval) : List Interval → List Interval
  | [] => [x]
  | y :: ys => if y.start ≤ x.start then y :: insert_by_start x ys else x :: y :: ys

/-- `valid.sort(key=lambda x: x.start)`: Python's `list.sort` is a stable
ascending sort, embedded as stable insertion sort (every stable sort by the
same key produces the identical list). -/
def sort_by_start (l : List Interval) : List Interval :=
  l.foldl (fun acc x => insert_by_start x acc) []

/-- `merge_intervals`: drop invalid intervals, sort ascending by start,
fold overlapping/touching intervals. -/
def merge_intervals (intervals : List Interval) : List Interval :=
  let valid := intervals.filter Interval.is_valid
  match sort_by_start valid with
  | [] => []
  | x :: xs => merge_fold x xs

/-! ## BusinessCalendar (src/kpi_calc/calendar_es.py) -/

/-- `SpainNationalHolidaysCalendar.is_working_day`: weekday Mon–Fri
(`weekday < 5`) and not in the holiday set for its year.  `d` is a day
index; `d % 7` is its weekday (Monday = 0). -/
def is_working_day (hol : Nat → Bool) (d : Nat) : Bool :=
  decide (d % 7 < 5) && !(hol d)

/-- One iteration of the `working_seconds` day loop: the overlap of
`[s, e)` with day `d`'s `[00:00, 24:00)` window, counted iff `d` is a
working day. -/
def daySeg (hol : Nat → Bool) (s e d : Nat) : Nat :=
  let dayStart := d * 86400
  let dayEnd := (d + 1) * 86400
  let segStart := max s dayStart
  let segEnd := min e dayEnd
  if segStart < segEnd ∧ is_working_day hol d then segEnd - segStart else 0

/-- `working_seconds(start, end)`: 0 when `end ≤ start`, else iterate
calendar days from `start`'s date to `end`'s date inclusive, accumulating
each day's overlap with `[start, end)` when the day is a working day. -/
def working_seconds (hol : Nat → Bool) (s e : Nat) : Nat :=
  if e ≤ s then 0
  else ((List.range (e / 86400 - s / 86400 + 1)).map
          (fun i => daySeg hol s e (s / 86400 + i))).sum

/-! ## Config (src/kpi_calc/config.py) -/

/-- Entity types of the SLA family. -/
def SLA_ENTITY_TYPES : List String :=
  ["Viabilidades", "Viabilidad", "Subviabilidades", "Subviabilidad",
   "Provisión", "Provision", "Provisión/Proyecto", "Provision/Proyecto", "PIP"]

/-- Entity types of the OLA family. -/
def OLA_ENTITY_TYPES : List String :=
  ["Servicio interno", "Tarea"]

/-- Stop types applicable to the SLA family. -/
def SLA_STOP_TYPES : List String :=
  ["Global"]

/-- Stop types applicable to the OLA family. -/
def OLA_STOP_TYPES : List String :=
  ["Global", "Interna", "Externa"]

/-! ## Models (src/kpi_calc/models.py) -/

/-- `Stop`: a reported pause record (`stop_type` is one of
`Global | Interna | Externa`, kept as a string as in the source). -/
structure Stop where
  stop_type : String
  start : Nat
  «end» : Nat
deriving DecidableEq

/-- `EntityInput`. -/
structure EntityInput where
  entity_type : String
  start : Nat
  «end» : Option Nat
  is_finalized : Bool
  now : Nat
  stops : List Stop
deriving DecidableEq

/-- The per-stop evidence actions of the calculator. -/
inductive EvidenceAction where
  | rejected_invalid_interval
  | discarded_outside_window
  | kept
  | clipped_to_window
deriving DecidableEq

/-- One evidence entry (one per processed stop record).  `clipped = none`
models the absent `"clipped"` key of the rejected/discarded entries. -/
structure Evidence where
  stop_type : String
  original : Interval
  clipped : Option Interval
  action : EvidenceAction
deriving DecidableEq

/-- The `explain["stops"][family]` record: evidence list, merged interval
list and summed working-second cost. -/
structure FamilyStopsExplain where
  evidence : List Evidence
  merged_intervals : List Interval
  working_seconds : Nat
deriving DecidableEq

/-- The `explain` evidence tree (input snapshot, windows, per-family stop
records, base durations). -/
structure Explain where
  entity_type : String
  is_finalized : Bool
  start : Nat
  «end» : Option Nat
  now : Nat
  real_window_start : Nat
  real_window_end : Option Nat
  to_date_window_start : Nat
  to_date_window_end : Nat
  sla_real : FamilyStopsExplain
  ola_real : FamilyStopsExplain
  sla_to_date : FamilyStopsExplain
  ola_to_date : FamilyStopsExplain
  ttd_working_seconds : Nat
  ttm_working_seconds : Option Nat
deriving DecidableEq

/-- `CalcResult`. -/
structure CalcResult where
  ttd_seconds : Nat
  ttm_seconds : Option Nat
  stops_sla_seconds : Nat
  stops_ola_seconds : Nat
  sla_real_seconds : Option Int
  sla_to_date_seconds : Option Int
  ola_real_seconds : Option Int
  ola_to_date_seconds : Option Int
  explain : Explain
deriving DecidableEq

/-! ## KpiCalculator (src/kpi_calc/calculator.py) -/

/-- The per-stop branch of `clip_merge_for`'s loop, producing the evidence
entry for one in-family stop record. -/
def evidence_for (window_start w_end : Nat) (s : Stop) : Evidence :=
  let iv : Interval := ⟨s.start, s.«end»⟩
  if iv.is_valid then
    match iv.clip window_start w_end with
    | none => ⟨s.stop_type, iv, none, .discarded_outside_window⟩
    | some c =>
      ⟨s.stop_type, iv, some c,
        if c.start = iv.start ∧ c.«end» = iv.«end» then .kept else .clipped_to_window⟩
  else ⟨s.stop_type, iv, none, .rejected_invalid_interval⟩

/-- The clipped-interval survivor of one in-family stop record (`none` when
the record is rejected or discarded). -/
def clipped_for (window_start w_end : Nat) (s : Stop) : Option Interval :=
  let iv : Interval := ⟨s.start, s.«end»⟩
  if iv.is_valid then iv.clip window_start w_end else none

/-- The `for s in entity.stops` loop of `clip_merge_for`: builds the raw
clipped-interval list and the evidence list, in input order. -/
def clip_merge_loop (window_start : Nat) (stop_types : List String) (w_end : Nat) :
    List Stop → List Interval × List Evidence
  | [] => ([], [])
  | s :: rest =>
    let acc := clip_merge_loop window_start stop_types w_end rest
    if s.stop_type ∈ stop_types then
      match clipped_for window_start w_end s with
      | none => (acc.1, evidence_for window_start w_end s :: acc.2)
      | some c => (c :: acc.1, evidence_for window_start w_end s :: acc.2)
    else acc

/-- `clip_merge_for(stop_types, w_end)`: filter the entity's stops by type,
validate/clip each with evidence, merge the survivors. -/
def clip_merge_for (window_start : Nat) (stops : List Stop)
    (stop_types : List String) (w_end : Nat) : List Interval × List Evidence :=
  let pair := clip_merge_loop window_start stop_types w_end stops
  (merge_intervals pair.1, pair.2)

/-- `sum_working(intervals)`: total working seconds over a list of
intervals. -/
def sum_working (hol : Nat → Bool) (intervals : List Interval) : Nat :=
  (intervals.map (fun iv => working_seconds hol iv.start iv.«end»)).sum

/-- `calculate(entity)`: the deterministic KPI oracle. -/
def calculate (hol : Nat → Bool) (entity : EntityInput) : CalcResult :=
  let window_start := entity.start
  -- `entity.end if entity.is_finalized and entity.end is not None else None`
  let real_end : Option Nat := if entity.is_finalized then entity.«end» else none
  let to_date_end := entity.now
  let ttd := working_seconds hol entity.start entity.now
  let ttm : Option Nat :=
    match real_end with
    | some re => some (working_seconds hol entity.start re)
    | none => none
  let sla_real_pair :=
    match real_end with
    | some re => clip_merge_for window_start entity.stops SLA_STOP_TYPES re
    | none => ([], [])
  let ola_real_pair :=
    match real_end with
    | some re => clip_merge_for window_start entity.stops OLA_STOP_TYPES re
    | none => ([], [])
  let stops_sla_real := if real_end.isSome then sum_working hol sla_real_pair.1 else 0
  let stops_ola_real := if real_end.isSome then sum_working hol ola_real_pair.1 else 0
  let sla_td_pair := clip_merge_for window_start entity.stops SLA_STOP_TYPES to_date_end
  let ola_td_pair := clip_merge_for window_start entity.stops OLA_STOP_TYPES to_date_end
  let stops_sla_td := sum_working hol sla_td_pair.1
  let stops_ola_td := sum_working hol ola_td_pair.1
  let is_sla_entity := entity.entity_type ∈ SLA_ENTITY_TYPES
  let is_ola_entity := entity.entity_type ∈ OLA_ENTITY_TYPES
  let sla_real : Option Int :=
    match real_end, ttm with
    | some _, some t =>
      if is_sla_entity then some (max 0 ((t : Int) - (stops_sla_real : Int))) else none
    | _, _ => none
  let ola_real : Option Int :=
    match real_end, ttm with
    | some _, some t =>
      if is_ola_entity then some (max 0 ((t : Int) - (stops_ola_real : Int))) else none
    | _, _ => none
  let sla_to_date : Option Int :=
    if is_sla_entity then some (max 0 ((ttd : Int) - (stops_sla_td : Int))) else none
  let ola_to_date : Option Int :=
    if is_ola_entity then some (max 0 ((ttd : Int) - (stops_ola_td : Int))) else none
  let explain : Explain :=
    { entity_type := entity.entity_type
      is_finalized := entity.is_finalized
      start := entity.start
      «end» := entity.«end»
      now := entity.now
      real_window_start := entity.start
      real_window_end := entity.«end»
      to_date_window_start := entity.start
      to_date_window_end := entity.now
      sla_real := ⟨sla_real_pair.2, sla_real_pair.1, stops_sla_real⟩
      ola_real := ⟨ola_real_pair.2, ola_real_pair.1, stops_ola_real⟩
      sla_to_date := ⟨sla_td_pair.2, sla_td_pair.1, stops_sla_td⟩
      ola_to_date := ⟨ola_td_pair.2, ola_td_pair.1, stops_ola_td⟩
      ttd_working_seconds := ttd
      ttm_working_seconds := ttm }
  let stops_sla_effective := if real_end.isSome then stops_sla_real else stops_sla_td
  let stops_ola_effective := if real_end.isSome then stops_ola_real else stops_ola_td
  { ttd_seconds := ttd
    ttm_seconds := ttm
    stops_sla_seconds := stops_sla_effective
    stops_ola_seconds := stops_ola_effective
    sla_real_seconds := sla_real
    sla_to_date_seconds := sla_to_date
    ola_real_seconds := ola_real
    ola_to_date_seconds := ola_to_date
    explain := explain }

/-! ## Formatting (src/kpi_calc/formatting.py) -/

/-- `ceil_seconds_to_minutes`: round a second count up to the next whole
minute (0 for non-positive input).  The Python source computes
`math.ceil(seconds / 60.0) * 60`; on the exact-integer range of interest
this equals `((seconds + 59) / 60) * 60` with integer floor division. -/
def ceil_seconds_to_minutes (seconds : Int) : Int :=
  if seconds ≤ 0 then 0 else ((seconds + 59) / 60) * 60

/-- Zero-padded rendering of a nonnegative count, as Python's `%02d`. -/
def pad2 (n : Int) : String :=
  if 0 ≤ n ∧ n < 10 then "0" ++ toString n else toString n

/-- `fmt_duration_dhm`: render as `"DD d HH h MM m"` after rounding up to
whole minutes. -/
def fmt_duration_dhm (seconds : Int) : String :=
  let s := ceil_seconds_to_minutes seconds
  let minutes := s / 60
  let days := minutes / (24 * 60)
  let minutes1 := minutes - days * (24 * 60)
  let hours := minutes1 / 60
  let minutes2 := minutes1 - hours * 60
  pad2 days ++ " d " ++ pad2 hours ++ " h " ++ pad2 minutes2 ++ " m"

/-! ## Specification-side definitions -/

/-- Modelled from the spec: the total number of seconds of overlap between
the half-open interval `[s, e)` and the union of the full-day
`[00:00, 24:00)` windows of all working days. -/
def calendar_overlap_seconds (hol : Nat → Bool) (s e : Nat) : Nat :=
  ((Finset.Ico s e).filter (fun t => is_working_day hol (t / 86400))).card

/-- The set of time points covered by (the valid intervals of) a list:
`t` is covered iff some listed interval contains it.  Invalid intervals
cover nothing. -/
def covers (l : List Interval) (t : Nat) : Prop :=
  ∃ i ∈ l, i.start ≤ t ∧ t < i.«end»

/-- The covered time points of a list of intervals, as a finite set. -/
def coveredF (l : List Interval) : Finset Nat :=
  l.foldr (fun i acc => Finset.Ico i.start i.«end» ∪ acc) ∅

/-! ## Calendar lemmas -/

lemma list_range_map_sum (f : Nat → Nat) (n : Nat) :
    ((List.range n).map f).sum = ∑ i in Finset.range n, f i := by
  induction n with
  | zero => simp
  | succ n ih =>
    rw [List.range_succ, List.map_append, List.sum_append, Finset.sum_range_succ, ih]
    simp

lemma working_seconds_of_le (hol : Nat → Bool) {s e : Nat} (h : e ≤ s) :
    working_seconds hol s e = 0 := by
  unfold working_seconds
  rw [if_pos h]

lemma working_seconds_sum (hol : Nat → Bool) {s e : Nat} (h : s < e) :
    working_seconds hol s e
      = ∑ i in Finset.range (e / 86400 - s / 86400 + 1), daySeg hol s e (s / 86400 + i) := by
  unfold working_seconds
  rw [if_neg (by omega), list_range_map_sum]

lemma overlap_const_day (hol : Nat → Bool) {s e d : Nat}
    (hd : ∀ t, s ≤ t → t < e → t / 86400 = d) :
    calendar_overlap_seconds hol s e = if is_working_day hol d then e - s else 0 := by
  unfold calendar_overlap_seconds
  by_cases hw : is_working_day hol d
  · rw [if_pos hw, Finset.filter_true_of_mem, Nat.card_Ico]
    intro t ht
    rw [Finset.mem_Ico] at ht
    rw [hd t ht.1 ht.2]
    exact hw
  · rw [if_neg hw, Finset.filter_false_of_mem, Finset.card_empty]
    intro t ht
    rw [Finset.mem_Ico] at ht
    rw [hd t ht.1 ht.2]
    exact hw

lemma overlap_split (hol : Nat → Bool) {s m e : Nat} (h1 : s ≤ m) (h2 : m ≤ e) :
    calendar_overlap_seconds hol s e
      = calendar_overlap_seconds hol s m + calendar_overlap_seconds hol m e := by
  unfold calendar_overlap_seconds
  rw [← Finset.Ico_union_Ico_eq_Ico h1 h2, Finset.filter_union,
    Finset.card_union_of_disjoint
      (Finset.disjoint_filter_filter (Finset.Ico_disjoint_Ico_consecutive s m e))]

lemma first_day_overlap (hol : Nat → Bool) (s : Nat) :
    calendar_overlap_seconds hol s ((s / 86400 + 1) * 86400)
      = if is_working_day hol (s / 86400) then (s / 86400 + 1) * 86400 - s else 0 := by
  apply overlap_const_day
  intro t ht1 ht2
  have h1 : s / 86400 ≤ t / 86400 := Nat.div_le_div_right ht1
  have h2 : t / 86400 < s / 86400 + 1 := by
    rw [Nat.div_lt_iff_lt_mul (by norm_num)]
    exact ht2
  omega

lemma lt_of_div_lt_div {s e : Nat} (h : s / 86400 < e / 86400) : s < e := by
  by_contra hc
  push_neg at hc
  exact absurd (Nat.div_le_div_right (c := 86400) hc) (by omega)

lemma working_seconds_first_split (hol : Nat → Bool) {s e : Nat}
    (h : s / 86400 < e / 86400) :
    working_seconds hol s e
      = (if is_working_day hol (s / 86400) then (s / 86400 + 1) * 86400 - s else 0)
        + working_seconds hol ((s / 86400 + 1) * 86400) e := by
  have hse : s < e := lt_of_div_lt_div h
  have hsm : s < (s / 86400 + 1) * 86400 := by
    rw [← Nat.div_lt_iff_lt_mul (by norm_num)]
    omega
  have hme : (s / 86400 + 1) * 86400 ≤ e :=
    le_trans (Nat.mul_le_mul_right _ (by omega)) (Nat.div_mul_le_self e 86400)
  have hmdiv : (s / 86400 + 1) * 86400 / 86400 = s / 86400 + 1 :=
    Nat.mul_div_cancel _ (by norm_num)
  rw [working_seconds_sum hol hse]
  have hcount : e / 86400 - s / 86400 + 1 = (e / 86400 - (s / 86400 + 1) + 1) + 1 := by
    omega
  rw [hcount, Finset.sum_range_succ']
  have hf0 : daySeg hol s e (s / 86400 + 0)
      = (if is_working_day hol (s / 86400) then (s / 86400 + 1) * 86400 - s else 0) := by
    simp only [daySeg, Nat.add_zero]
    rw [max_eq_left (Nat.div_mul_le_self s 86400), min_eq_right hme]
    by_cases hw : is_working_day hol (s / 86400) <;> simp [hw, hsm]
  rw [hf0, Nat.add_comm]
  congr 1
  rcases eq_or_lt_of_le hme with heq | hlt2
  · rw [working_seconds_of_le hol (le_of_eq heq.symm)]
    have hz : e / 86400 - (s / 86400 + 1) = 0 := by
      rw [← heq, hmdiv]
      omega
    rw [hz]
    simp only [Finset.sum_range_succ, Finset.sum_range_zero, Nat.zero_add]
    have hseg : daySeg hol s e (s / 86400 + (0 + 1)) = 0 := by
      simp only [daySeg]
      have hmax : max s ((s / 86400 + (0 + 1)) * 86400) = (s / 86400 + 1) * 86400 := by
        rw [max_eq_right]
        omega
      have hmin : min e ((s / 86400 + (0 + 1) + 1) * 86400) = e := by
        rw [min_eq_left]
        calc e = (s / 86400 + 1) * 86400 := heq.symm
          _ ≤ (s / 86400 + (0 + 1) + 1) * 86400 := Nat.mul_le_mul_right _ (by omega)
      rw [hmax, hmin, if_neg]
      rw [← heq]
      omega
    rw [hseg]
  · rw [working_seconds_sum hol hlt2, hmdiv]
    apply Finset.sum_congr rfl
    intro i _
    have harg : s / 86400 + (i + 1) = s / 86400 + 1 + i := by omega
    rw [harg]
    simp only [daySeg]
    have hd : (s / 86400 + 1) * 86400 ≤ (s / 86400 + 1 + i) * 86400 :=
      Nat.mul_le_mul_right _ (by omega)
    rw [max_eq_right (le_trans (le_of_lt hsm) hd), max_eq_right hd]

lemma ws_eq_overlap_aux (hol : Nat → Bool) :
    ∀ n s e, e / 86400 - s / 86400 = n →
      working_seconds hol s e = calendar_overlap_seconds hol s e := by
  intro n
  induction n with
  | zero =>
    intro s e hn
    rcases le_or_lt e s with hle | hlt
    · rw [working_seconds_of_le hol hle]
      unfold calendar_overlap_seconds
      rw [Finset.Ico_eq_empty (by omega : ¬ s < e)]
      simp
    · have hdd : e / 86400 = s / 86400 := by
        have := Nat.div_le_div_right (c := 86400) hlt.le
        omega
      have hdcst : ∀ t, s ≤ t → t < e → t / 86400 = s / 86400 := by
        intro t ht1 ht2
        have h1 : s / 86400 ≤ t / 86400 := Nat.div_le_div_right ht1
        have h2 : t / 86400 ≤ e / 86400 := Nat.div_le_div_right (le_of_lt ht2)
        omega
      rw [working_seconds_sum hol hlt, overlap_const_day hol hdcst, hdd]
      simp only [Nat.sub_self, Nat.zero_add, Finset.sum_range_one, Nat.add_zero]
      simp only [daySeg]
      have hde : e ≤ (s / 86400 + 1) * 86400 := by
        have : e < (e / 86400 + 1) * 86400 := by
          rw [← Nat.div_lt_iff_lt_mul (by norm_num)]
          omega
        omega
      rw [max_eq_left (Nat.div_mul_le_self s 86400), min_eq_left hde]
      by_cases hw : is_working_day hol (s / 86400) <;> simp [hw, hlt]
  | succ n ih =>
    intro s e hn
    have h : s / 86400 < e / 86400 := by omega
    have hsm : s < (s / 86400 + 1) * 86400 := by
      rw [← Nat.div_lt_iff_lt_mul (by norm_num)]
      omega
    have hme : (s / 86400 + 1) * 86400 ≤ e :=
      le_trans (Nat.mul_le_mul_right _ (by omega)) (Nat.div_mul_le_self e 86400)
    have hmdiv : (s / 86400 + 1) * 86400 / 86400 = s / 86400 + 1 :=
      Nat.mul_div_cancel _ (by norm_num)
    rw [working_seconds_first_split hol h,
      overlap_split hol (le_of_lt hsm) hme, first_day_overlap,
      ih ((s / 86400 + 1) * 86400) e (by omega)]

/-! ## Interval-engine lemmas -/

lemma covers_cons {a : Interval} {l : List Interval} {t : Nat} :
    covers (a :: l) t ↔ (a.start ≤ t ∧ t < a.«end») ∨ covers l t := by
  simp [covers, List.mem_cons, or_and_right, exists_or]

lemma covers_perm {X Y : List Interval} (h : X.Perm Y) (t : Nat) :
    covers X t ↔ covers Y t := by
  unfold covers
  constructor
  · rintro ⟨i, hm, hi⟩
    exact ⟨i, h.mem_iff.mp hm, hi⟩
  · rintro ⟨i, hm, hi⟩
    exact ⟨i, h.mem_iff.mpr hm, hi⟩

lemma covers_filter_valid {X : List Interval} (t : Nat) :
    covers (X.filter Interval.is_valid) t ↔ covers X t := by
  unfold covers
  constructor
  · rintro ⟨i, hm, hi⟩
    exact ⟨i, (List.mem_filter.mp hm).1, hi⟩
  · rintro ⟨i, hm, hi⟩
    refine ⟨i, List.mem_filter.mpr ⟨hm, ?_⟩, hi⟩
    exact decide_eq_true (by omega)

lemma mem_coveredF : ∀ {l : List Interval} {t : Nat}, t ∈ coveredF l ↔ covers l t := by
  intro l t
  induction l with
  | nil => simp [coveredF, covers]
  | cons a l ih =>
    show t ∈ Finset.Ico a.start a.«end» ∪ coveredF l ↔ _
    rw [Finset.mem_union, Finset.mem_Ico, ih, covers_cons]

lemma merge_fold_covers :
    ∀ (xs : List Interval) (cur : Interval), cur.start < cur.«end» →
      (∀ i ∈ xs, i.start < i.«end») →
      xs.Pairwise (fun a b => a.start ≤ b.start) →
      (∀ i ∈ xs, cur.start ≤ i.start) →
      ∀ t, covers (merge_fold cur xs) t ↔ ((cur.start ≤ t ∧ t < cur.«end») ∨ covers xs t) := by
  intro xs
  induction xs with
  | nil =>
    intro cur hcur _ _ _ t
    simp [merge_fold, covers_cons, covers]
  | cons x xs ih =>
    intro cur hcur hv hs hle t
    rw [List.pairwise_cons] at hs
    have hxv : x.start < x.«end» := hv x (List.mem_cons_self x xs)
    have hcx : cur.start ≤ x.start := hle x (List.mem_cons_self x xs)
    simp only [merge_fold]
    by_cases hbr : x.start ≤ cur.«end»
    · rw [if_pos hbr]
      rw [ih ⟨cur.start, max cur.«end» x.«end»⟩ (lt_max_iff.mpr (Or.inl hcur))
        (fun i hi => hv i (List.mem_cons_of_mem _ hi)) hs.2
        (fun i hi => hle i (List.mem_cons_of_mem _ hi)) t]
      rw [covers_cons]
      constructor
      · rintro (⟨h1, h2⟩ | h)
        · rcases lt_or_le t cur.«end» with hc | hc
          · exact Or.inl ⟨h1, hc⟩
          · refine Or.inr (Or.inl ⟨le_trans hbr hc, ?_⟩)
            rcases lt_max_iff.mp h2 with h2 | h2
            · omega
            · exact h2
        · exact Or.inr (Or.inr h)
      · rintro (⟨h1, h2⟩ | ⟨h1, h2⟩ | h)
        · exact Or.inl ⟨h1, lt_max_iff.mpr (Or.inl h2)⟩
        · exact Or.inl ⟨le_trans hcx h1, lt_max_iff.mpr (Or.inr h2)⟩
        · exact Or.inr h
    · rw [if_neg hbr]
      push_neg at hbr
      rw [covers_cons,
        ih x hxv (fun i hi => hv i (List.mem_cons_of_mem _ hi)) hs.2 hs.1 t,
        covers_cons]

lemma merge_fold_gap :
    ∀ (xs : List Interval) (cur : Interval), cur.start < cur.«end» →
      (∀ i ∈ xs, i.start < i.«end») →
      xs.Pairwise (fun a b => a.start ≤ b.start) →
      ∃ hd tl, merge_fold cur xs = hd :: tl ∧ hd.start = cur.start ∧
        (hd :: tl).Chain' (fun a b => a.«end» < b.start) ∧
        ∀ i ∈ hd :: tl, i.start < i.«end» := by
  intro xs
  induction xs with
  | nil =>
    intro cur hcur _ _
    exact ⟨cur, [], rfl, rfl, List.chain'_singleton _, by simpa using hcur⟩
  | cons x xs ih =>
    intro cur hcur hv hs
    rw [List.pairwise_cons] at hs
    by_cases hbr : x.start ≤ cur.«end»
    · obtain ⟨hd, tl, heq, hst, hch, hvl⟩ :=
        ih ⟨cur.start, max cur.«end» x.«end»⟩ (lt_max_iff.mpr (Or.inl hcur))
          (fun i hi => hv i (List.mem_cons_of_mem _ hi)) hs.2
      refine ⟨hd, tl, ?_, hst, hch, hvl⟩
      simp only [merge_fold, if_pos hbr]
      exact heq
    · push_neg at hbr
      obtain ⟨hd, tl, heq, hst, hch, hvl⟩ :=
        ih x (hv x (List.mem_cons_self x xs))
          (fun i hi => hv i (List.mem_cons_of_mem _ hi)) hs.2
      refine ⟨cur, hd :: tl, ?_, rfl, ?_, ?_⟩
      · simp only [merge_fold, if_neg (not_le.mpr hbr)]
        rw [heq]
      · rw [List.chain'_cons]
        exact ⟨by omega, hch⟩
      · intro i hi
        rcases List.mem_cons.mp hi with rfl | hi
        · exact hcur
        · exact hvl i hi

lemma merge_intervals_eq (X : List Interval) :
    merge_intervals X
      = match sort_by_start (X.filter Interval.is_valid) with
        | [] => []
        | x :: xs => merge_fold x xs := rfl

lemma insert_by_start_perm (x : Interval) :
    ∀ l : List Interval, (insert_by_start x l).Perm (x :: l) := by
  intro l
  induction l with
  | nil => exact List.Perm.refl _
  | cons y ys ih =>
    simp only [insert_by_start]
    by_cases h : y.start ≤ x.start
    · rw [if_pos h]
      exact ((ih.cons y).trans (List.Perm.swap x y ys))
    · rw [if_neg h]

lemma insert_by_start_sorted (x : Interval) :
    ∀ {l : List Interval}, l.Pairwise (fun a b => a.start ≤ b.start) →
      (insert_by_start x l).Pairwise (fun a b => a.start ≤ b.start) := by
  intro l
  induction l with
  | nil =>
    intro _
    exact List.pairwise_singleton _ _
  | cons y ys ih =>
    intro hs
    rw [List.pairwise_cons] at hs
    simp only [insert_by_start]
    by_cases h : y.start ≤ x.start
    · rw [if_pos h]
      rw [List.pairwise_cons]
      refine ⟨fun a ha => ?_, ih hs.2⟩
      rcases List.mem_cons.mp ((insert_by_start_perm x ys).mem_iff.mp ha) with rfl | ha
      · exact h
      · exact hs.1 a ha
    · rw [if_neg h]
      rw [List.pairwise_cons]
      refine ⟨fun a ha => ?_, List.pairwise_cons.mpr hs⟩
      rcases List.mem_cons.mp ha with rfl | ha
      · omega
      · exact le_trans (by omega) (hs.1 a ha)

lemma sort_by_start_perm_aux :
    ∀ (l acc : List Interval),
      (l.foldl (fun acc x => insert_by_start x acc) acc).Perm (acc ++ l) := by
  intro l
  induction l with
  | nil =>
    intro acc
    rw [List.append_nil]
    exact List.Perm.refl _
  | cons x xs ih =>
    intro acc
    refine List.Perm.trans (ih (insert_by_start x acc)) ?_
    refine List.Perm.trans ((insert_by_start_perm x acc).append_right xs) ?_
    exact List.perm_middle.symm

lemma sort_by_start_perm (l : List Interval) : (sort_by_start l).Perm l := by
  have := sort_by_start_perm_aux l []
  simpa [sort_by_start] using this

lemma sort_by_start_sorted_aux :
    ∀ (l acc : List Interval), acc.Pairwise (fun a b => a.start ≤ b.start) →
      (l.foldl (fun acc x => insert_by_start x acc) acc).Pairwise
        (fun a b => a.start ≤ b.start) := by
  intro l
  induction l with
  | nil =>
    intro acc h
    exact h
  | cons x xs ih =>
    intro acc h
    exact ih _ (insert_by_start_sorted x h)

lemma sort_by_start_sorted (l : List Interval) :
    (sort_by_start l).Pairwise (fun a b => a.start ≤ b.start) :=
  sort_by_start_sorted_aux l [] List.Pairwise.nil

lemma mergeSort_valid {X : List Interval} :
    ∀ i ∈ sort_by_start (X.filter Interval.is_valid), i.start < i.«end» := by
  intro i hi
  have hm := (sort_by_start_perm (X.filter Interval.is_valid)).mem_iff.mp hi
  have := (List.mem_filter.mp hm).2
  exact of_decide_eq_true this

lemma merge_intervals_gap (X : List Interval) :
    (merge_intervals X).Chain' (fun a b => a.«end» < b.start)
    ∧ ∀ i ∈ merge_intervals X, i.start < i.«end» := by
  rw [merge_intervals_eq]
  have hsorted := sort_by_start_sorted (X.filter Interval.is_valid)
  have hvalid := mergeSort_valid (X := X)
  cases hms : sort_by_start (X.filter Interval.is_valid) with
  | nil => exact ⟨List.chain'_nil, by simp⟩
  | cons x xs =>
    rw [hms] at hsorted hvalid
    rw [List.pairwise_cons] at hsorted
    obtain ⟨hd, tl, heq, _, hch, hvl⟩ :=
      merge_fold_gap xs x (hvalid x (List.mem_cons_self x xs))
        (fun i hi => hvalid i (List.mem_cons_of_mem _ hi)) hsorted.2
    have hred : (match x :: xs with
        | [] => ([] : List Interval)
        | x :: xs => merge_fold x xs) = merge_fold x xs := rfl
    rw [hred, heq]
    exact ⟨hch, hvl⟩

lemma merge_intervals_covers (X : List Interval) (t : Nat) :
    covers (merge_intervals X) t ↔ covers X t := by
  rw [merge_intervals_eq]
  have hperm := sort_by_start_perm (X.filter Interval.is_valid)
  have hsorted := sort_by_start_sorted (X.filter Interval.is_valid)
  have hvalid := mergeSort_valid (X := X)
  cases hms : sort_by_start (X.filter Interval.is_valid) with
  | nil =>
    rw [hms] at hperm
    have hnil : X.filter Interval.is_valid = [] := hperm.symm.eq_nil
    constructor
    · rintro ⟨i, hi, _⟩
      exact absurd hi (List.not_mem_nil i)
    · intro h
      rw [← covers_filter_valid (X := X) t, hnil] at h
      obtain ⟨i, hi, _⟩ := h
      exact absurd hi (List.not_mem_nil i)
  | cons x xs =>
    rw [hms] at hperm hsorted hvalid
    rw [List.pairwise_cons] at hsorted
    have hred : (match x :: xs with
        | [] => ([] : List Interval)
        | x :: xs => merge_fold x xs) = merge_fold x xs := rfl
    rw [hred, merge_fold_covers xs x (hvalid x (List.mem_cons_self x xs))
      (fun i hi => hvalid i (List.mem_cons_of_mem _ hi)) hsorted.2 hsorted.1 t,
      ← covers_cons, covers_perm hperm t, covers_filter_valid]

lemma chain_gap_lt {x : Interval} :
    ∀ {xs : List Interval}, (x :: xs).Chain' (fun a b => a.«end» < b.start) →
      (∀ i ∈ xs, i.start < i.«end») → ∀ i ∈ xs, x.«end» < i.start := by
  intro xs
  induction xs generalizing x with
  | nil =>
    intro _ _ i hi
    exact absurd hi (List.not_mem_nil i)
  | cons y ys ih =>
    intro hch hv i hi
    rw [List.chain'_cons] at hch
    rcases List.mem_cons.mp hi with rfl | hi
    · exact hch.1
    · have hyv : y.start < y.«end» := hv y (List.mem_cons_self y ys)
      have := ih hch.2 (fun j hj => hv j (List.mem_cons_of_mem _ hj)) i hi
      omega

lemma chain_gap_pairwise :
    ∀ {l : List Interval}, l.Chain' (fun a b => a.«end» < b.start) →
      (∀ i ∈ l, i.start < i.«end») →
      l.Pairwise (fun a b => a.start < b.start ∧ a.«end» < b.start) := by
  intro l
  induction l with
  | nil =>
    intro _ _
    exact List.Pairwise.nil
  | cons x xs ih =>
    intro hch hv
    rw [List.pairwise_cons]
    refine ⟨fun i hi => ?_, ih hch.tail (fun j hj => hv j (List.mem_cons_of_mem _ hj))⟩
    have h1 := chain_gap_lt hch (fun j hj => hv j (List.mem_cons_of_mem _ hj)) i hi
    have h2 := hv x (List.mem_cons_self x xs)
    exact ⟨by omega, h1⟩

lemma gap_unique :
    ∀ (l m : List Interval),
      l.Chain' (fun a b => a.«end» < b.start) → (∀ i ∈ l, i.start < i.«end») →
      m.Chain' (fun a b => a.«end» < b.start) → (∀ i ∈ m, i.start < i.«end») →
      (∀ t, covers l t ↔ covers m t) → l = m := by
  intro l
  induction l with
  | nil =>
    intro m _ _ _ hmv hcov
    cases m with
    | nil => rfl
    | cons y ys =>
      exfalso
      have hy : covers (y :: ys) y.start :=
        ⟨y, List.mem_cons_self y ys, le_refl _, hmv y (List.mem_cons_self y ys)⟩
      obtain ⟨i, hi, _⟩ := (hcov y.start).mpr hy
      exact List.not_mem_nil i hi
  | cons x xs ih =>
    intro m hlc hlv hmc hmv hcov
    cases m with
    | nil =>
      exfalso
      have hx : covers (x :: xs) x.start :=
        ⟨x, List.mem_cons_self x xs, le_refl _, hlv x (List.mem_cons_self x xs)⟩
      obtain ⟨i, hi, _⟩ := (hcov x.start).mp hx
      exact List.not_mem_nil i hi
    | cons y ys =>
      have hxv := hlv x (List.mem_cons_self x xs)
      have hyv := hmv y (List.mem_cons_self y ys)
      have hxgap := chain_gap_lt hlc (fun i hi => hlv i (List.mem_cons_of_mem _ hi))
      have hygap := chain_gap_lt hmc (fun i hi => hmv i (List.mem_cons_of_mem _ hi))
      have hstart : x.start = y.start := by
        obtain ⟨i, hi, hi2⟩ :=
          (hcov x.start).mp ⟨x, List.mem_cons_self x xs, le_refl _, hxv⟩
        obtain ⟨j, hj, hj2⟩ :=
          (hcov y.start).mpr ⟨y, List.mem_cons_self y ys, le_refl _, hyv⟩
        rcases List.mem_cons.mp hi with rfl | hi
        · rcases List.mem_cons.mp hj with rfl | hj
          · omega
          · have := hxgap j hj
            omega
        · have := hygap i hi
          rcases List.mem_cons.mp hj with rfl | hj
          · omega
          · have := hxgap j hj
            omega
      have hend : x.«end» = y.«end» := by
        by_contra hne
        rcases Nat.lt_or_ge x.«end» y.«end» with hlt | hge
        · obtain ⟨i, hi, hi2⟩ := (hcov x.«end»).mpr
            ⟨y, List.mem_cons_self y ys, by omega, hlt⟩
          rcases List.mem_cons.mp hi with rfl | hi
          · omega
          · have := hxgap i hi
            omega
        · have hgt : y.«end» < x.«end» := by omega
          obtain ⟨i, hi, hi2⟩ := (hcov y.«end»).mp
            ⟨x, List.mem_cons_self x xs, by omega, hgt⟩
          rcases List.mem_cons.mp hi with rfl | hi
          · omega
          · have := hygap i hi
            omega
      have htails : ∀ t, covers xs t ↔ covers ys t := by
        intro t
        constructor
        · rintro ⟨i, hi, hi2⟩
          have hgt : x.«end» < t := by
            have := hxgap i hi
            omega
          obtain ⟨j, hj, hj2⟩ := (hcov t).mp ⟨i, List.mem_cons_of_mem _ hi, hi2⟩
          rcases List.mem_cons.mp hj with rfl | hj
          · omega
          · exact ⟨j, hj, hj2⟩
        · rintro ⟨i, hi, hi2⟩
          have hgt : y.«end» < t := by
            have := hygap i hi
            omega
          obtain ⟨j, hj, hj2⟩ := (hcov t).mpr ⟨i, List.mem_cons_of_mem _ hi, hi2⟩
          rcases List.mem_cons.mp hj with rfl | hj
          · omega
          · exact ⟨j, hj, hj2⟩
      have hxy : x = y := by
        cases x
        cases y
        simp_all
      rw [hxy,
        ih ys hlc.tail (fun j hj => hlv j (List.mem_cons_of_mem _ hj))
          hmc.tail (fun j hj => hmv j (List.mem_cons_of_mem _ hj)) htails]

/-! ## Working-time measure lemmas -/

lemma sum_working_gap (hol : Nat → Bool) :
    ∀ l : List Interval, l.Chain' (fun a b => a.«end» < b.start) →
      (∀ i ∈ l, i.start < i.«end») →
      sum_working hol l
        = ((coveredF l).filter (fun t => is_working_day hol (t / 86400))).card := by
  intro l
  induction l with
  | nil => simp [sum_working, coveredF]
  | cons x xs ih =>
    intro hch hv
    have hxs := ih hch.tail (fun j hj => hv j (List.mem_cons_of_mem _ hj))
    have hcov : coveredF (x :: xs) = Finset.Ico x.start x.«end» ∪ coveredF xs := rfl
    have hdisj : Disjoint (Finset.Ico x.start x.«end») (coveredF xs) := by
      rw [Finset.disjoint_left]
      intro t ht hmem
      rw [Finset.mem_Ico] at ht
      obtain ⟨i, hi, hi2⟩ := mem_coveredF.mp hmem
      have := chain_gap_lt hch (fun j hj => hv j (List.mem_cons_of_mem _ hj)) i hi
      omega
    rw [hcov, Finset.filter_union,
      Finset.card_union_of_disjoint (Finset.disjoint_filter_filter hdisj), ← hxs]
    simp only [sum_working, List.map_cons, List.sum_cons]
    rw [ws_eq_overlap_aux hol (x.«end» / 86400 - x.start / 86400) x.start x.«end» rfl]
    rfl

lemma coveredF_merge (X : List Interval) : coveredF (merge_intervals X) = coveredF X := by
  apply Finset.ext
  intro t
  rw [mem_coveredF, mem_coveredF]
  exact merge_intervals_covers X t

lemma sum_working_merge (hol : Nat → Bool) (X : List Interval) :
    sum_working hol (merge_intervals X)
      = ((coveredF X).filter (fun t => is_working_day hol (t / 86400))).card := by
  obtain ⟨hch, hv⟩ := merge_intervals_gap X
  rw [sum_working_gap hol _ hch hv, coveredF_merge]

lemma covers_sublist {X Y : List Interval} (h : X.Sublist Y) (t : Nat) :
    covers X t → covers Y t := by
  rintro ⟨i, hi, hi2⟩
  exact ⟨i, h.subset hi, hi2⟩

lemma coveredF_subset_of_sublist {X Y : List Interval} (h : X.Sublist Y) :
    coveredF X ⊆ coveredF Y := by
  intro t ht
  rw [mem_coveredF] at ht ⊢
  exact covers_sublist h t ht

lemma clip_loop_raw_sublist (window_start w_end : Nat) (tys1 tys2 : List String)
    (hsub : ∀ a, a ∈ tys1 → a ∈ tys2) :
    ∀ stops : List Stop,
      ((clip_merge_loop window_start tys1 w_end stops).1).Sublist
        ((clip_merge_loop window_start tys2 w_end stops).1) := by
  intro stops
  induction stops with
  | nil => simp [clip_merge_loop]
  | cons s rest ih =>
    simp only [clip_merge_loop]
    by_cases h1 : s.stop_type ∈ tys1
    · have h2 : s.stop_type ∈ tys2 := hsub _ h1
      rw [if_pos h1, if_pos h2]
      cases hc : clipped_for window_start w_end s with
      | none => exact ih
      | some c => exact ih.cons₂ c
    · by_cases h2 : s.stop_type ∈ tys2
      · rw [if_neg h1, if_pos h2]
        cases hc : clipped_for window_start w_end s with
        | none => exact ih
        | some c => exact ih.cons c
      · rw [if_neg h1, if_neg h2]
        exact ih

/-! ## Claim theorems: calendar and interval engine -/

/-- C1: `working_seconds(start, end)` equals the total number of seconds of
overlap between the half-open interval `[start, end)` and the union of the
full-day `[00:00, 24:00)` windows of all working days (weekday Monday–Friday
and not a configured national holiday); in particular it returns 0 whenever
`end ≤ start` (weekend/holiday portions contribute nothing since the overlap
count filters on `is_working_day`). -/
theorem working_seconds_matches_calendar_overlap (hol : Nat → Bool) (s e : Nat) :
    working_seconds hol s e = calendar_overlap_seconds hol s e
    ∧ (e ≤ s → working_seconds hol s e = 0) :=
  ⟨ws_eq_overlap_aux hol (e / 86400 - s / 86400) s e rfl,
   fun h => working_seconds_of_le hol h⟩

/-- Witness for C1 at a concrete input with `end ≤ start`. -/
theorem working_seconds_matches_calendar_overlap_witness :
    (5 : Nat) ≤ 7 ∧ working_seconds (fun _ => false) 7 5 = 0 :=
  ⟨by decide, (working_seconds_matches_calendar_overlap (fun _ => false) 7 5).2 (by decide)⟩

/-- C10: `working_seconds` never exceeds the wall-clock elapsed seconds
`e - s`, and is always nonnegative. -/
theorem working_seconds_bounded_by_elapsed (hol : Nat → Bool) (s e : Nat) :
    working_seconds hol s e ≤ e - s ∧ 0 ≤ working_seconds hol s e := by
  constructor
  · rw [ws_eq_overlap_aux hol (e / 86400 - s / 86400) s e rfl]
    unfold calendar_overlap_seconds
    exact le_trans (Finset.card_filter_le _ _) (le_of_eq (Nat.card_Ico s e))
  · exact Nat.zero_le _

/-- C4: `clip` returns exactly the intersection
`[max(start, window_start), min(end, window_end))` when that intersection is
nonempty, `none` otherwise; any returned interval is valid (`end > start`). -/
theorem clip_intersection_spec (i : Interval) (ws we : Nat) :
    i.clip ws we
        = (if max i.start ws < min i.«end» we
           then some ⟨max i.start ws, min i.«end» we⟩ else none)
    ∧ (i.clip ws we).all Interval.is_valid = true
    ∧ (i.clip ws we = none ↔ min i.«end» we ≤ max i.start ws) := by
  have h1 : i.clip ws we
      = (if max i.start ws < min i.«end» we
         then some ⟨max i.start ws, min i.«end» we⟩ else none) := by
    unfold Interval.clip
    by_cases hg : i.«end» ≤ ws ∨ i.start ≥ we
    · rw [if_pos hg, if_neg (by omega)]
    · rw [if_neg hg]
      simp only [Interval.is_valid]
      by_cases hv : max i.start ws < min i.«end» we
      · rw [if_pos (by exact decide_eq_true hv), if_pos hv]
      · rw [if_neg (by simpa using hv), if_neg hv]
  refine ⟨h1, ?_, ?_⟩
  · rw [h1]
    by_cases hv : max i.start ws < min i.«end» we
    · rw [if_pos hv]
      simpa [Interval.is_valid] using hv
    · rw [if_neg hv]
      rfl
  · rw [h1]
    by_cases hv : max i.start ws < min i.«end» we
    · rw [if_pos hv]
      simp
      omega
    · rw [if_neg hv]
      simp
      omega

/-- C3: `merge_intervals` yields a list that is sorted strictly ascending by
start and pairwise non-overlapping and non-touching (each interval's start is
strictly greater than the previous interval's end); it is idempotent; and it
is invariant under permutation of its input. -/
theorem merge_intervals_canonical (X Y : List Interval) (hperm : X.Perm Y) :
    (merge_intervals X).Pairwise (fun a b => a.start < b.start ∧ a.«end» < b.start)
    ∧ merge_intervals (merge_intervals X) = merge_intervals X
    ∧ merge_intervals X = merge_intervals Y := by
  obtain ⟨hchX, hvX⟩ := merge_intervals_gap X
  obtain ⟨hchY, hvY⟩ := merge_intervals_gap Y
  obtain ⟨hchXX, hvXX⟩ := merge_intervals_gap (merge_intervals X)
  refine ⟨chain_gap_pairwise hchX hvX, ?_, ?_⟩
  · exact gap_unique _ _ hchXX hvXX hchX hvX
      (fun t => merge_intervals_covers (merge_intervals X) t)
  · refine gap_unique _ _ hchX hvX hchY hvY (fun t => ?_)
    rw [merge_intervals_covers, merge_intervals_covers]
    exact covers_perm hperm t

/-- Witness for C3 at a concrete permuted pair of interval lists. -/
theorem merge_intervals_canonical_witness :
    ([(⟨0, 2⟩ : Interval), ⟨1, 3⟩].Perm [⟨1, 3⟩, ⟨0, 2⟩])
    ∧ ((merge_intervals [(⟨0, 2⟩ : Interval), ⟨1, 3⟩]).Pairwise
        (fun a b => a.start < b.start ∧ a.«end» < b.start)
      ∧ merge_intervals (merge_intervals [(⟨0, 2⟩ : Interval), ⟨1, 3⟩])
          = merge_intervals [(⟨0, 2⟩ : Interval), ⟨1, 3⟩]
      ∧ merge_intervals [(⟨0, 2⟩ : Interval), ⟨1, 3⟩]
          = merge_intervals [⟨1, 3⟩, ⟨0, 2⟩]) :=
  ⟨List.Perm.swap _ _ _, merge_intervals_canonical _ _ (List.Perm.swap _ _ _)⟩

/-- C9: for the same window, the OLA family's merged stop total in working
seconds dominates the SLA family's, both for an arbitrary window end and for
the effective `stops_*_seconds` fields of `calculate` (which use the same
window for both families). -/
theorem ola_stop_total_ge_sla (hol : Nat → Bool) (entity : EntityInput) (w_end : Nat) :
    sum_working hol (clip_merge_for entity.start entity.stops SLA_STOP_TYPES w_end).1
      ≤ sum_working hol (clip_merge_for entity.start entity.stops OLA_STOP_TYPES w_end).1
    ∧ (calculate hol entity).stops_sla_seconds ≤ (calculate hol entity).stops_ola_seconds := by
  have hsub : ∀ a : String, a ∈ SLA_STOP_TYPES → a ∈ OLA_STOP_TYPES := by
    intro a ha
    simp only [SLA_STOP_TYPES, List.mem_singleton] at ha
    simp [OLA_STOP_TYPES, ha]
  have hmain : ∀ we,
      sum_working hol (clip_merge_for entity.start entity.stops SLA_STOP_TYPES we).1
        ≤ sum_working hol (clip_merge_for entity.start entity.stops OLA_STOP_TYPES we).1 := by
    intro we
    have hsl := clip_loop_raw_sublist entity.start we SLA_STOP_TYPES OLA_STOP_TYPES hsub
      entity.stops
    show sum_working hol (merge_intervals _) ≤ sum_working hol (merge_intervals _)
    rw [sum_working_merge, sum_working_merge]
    exact Finset.card_le_card
      (Finset.filter_subset_filter _ (coveredF_subset_of_sublist hsl))
  refine ⟨hmain w_end, ?_⟩
  cases hfin : entity.is_finalized with
  | false =>
    simp only [calculate, hfin, if_neg, Bool.false_eq_true, if_false, Option.isSome_none]
    exact hmain entity.now
  | true =>
    cases hend : entity.«end» with
    | none =>
      simp only [calculate, hfin, hend, if_true, Option.isSome_none]
      exact hmain entity.now
    | some re =>
      simp only [calculate, hfin, hend, if_true, Option.isSome_some]
      exact hmain re

/-! ## Calculator lemmas -/

lemma clip_merge_loop_spec (window_start : Nat) (stop_types : List String) (w_end : Nat) :
    ∀ l : List Stop,
      (clip_merge_loop window_start stop_types w_end l).1
          = (l.filter (fun s => decide (s.stop_type ∈ stop_types))).filterMap
              (clipped_for window_start w_end)
      ∧ (clip_merge_loop window_start stop_types w_end l).2
          = (l.filter (fun s => decide (s.stop_type ∈ stop_types))).map
              (evidence_for window_start w_end) := by
  intro l
  induction l with
  | nil => exact ⟨rfl, rfl⟩
  | cons s rest ih =>
    simp only [clip_merge_loop]
    by_cases h : s.stop_type ∈ stop_types
    · rw [if_pos h]
      have hfc : List.filter (fun s => decide (s.stop_type ∈ stop_types)) (s :: rest)
          = s :: List.filter (fun s => decide (s.stop_type ∈ stop_types)) rest := by
        simp [List.filter_cons, h]
      rw [hfc, List.filterMap_cons, List.map_cons]
      generalize clipped_for window_start w_end s = co
      cases co with
      | none => exact ⟨ih.1, by rw [ih.2]⟩
      | some c => exact ⟨by rw [ih.1], by rw [ih.2]⟩
    · rw [if_neg h]
      have hfc : List.filter (fun s => decide (s.stop_type ∈ stop_types)) (s :: rest)
          = List.filter (fun s => decide (s.stop_type ∈ stop_types)) rest := by
        simp [List.filter_cons, h]
      rw [hfc]
      exact ih

lemma opt_if_max_nonneg {o : Option Int} {c : Prop} [Decidable c] {a b : Int}
    (ho : o = if c then some (max 0 (a - b)) else none) :
    ∀ v, o = some v → 0 ≤ v := by
  intro v hv
  rw [ho] at hv
  split at hv
  · injection hv with hv
    rw [← hv]
    exact le_max_left _ _
  · exact Option.noConfusion hv

/-! ## Claim theorems: calculator -/

/-- C5: for each family/window, the evidence list of `clip_merge_for` has
exactly one entry per input stop record whose type is in the family's
applicable set (in input order, each classified by `evidence_for` as
rejected-invalid / discarded-outside-window / kept / clipped), and stops of
other types are absent both from the evidence and from the merged totals. -/
theorem evidence_one_per_applicable_stop (window_start : Nat) (stops : List Stop)
    (stop_types : List String) (w_end : Nat) :
    (clip_merge_for window_start stops stop_types w_end).2
        = (stops.filter (fun s => decide (s.stop_type ∈ stop_types))).map
            (evidence_for window_start w_end)
    ∧ (clip_merge_for window_start stops stop_types w_end).1
        = merge_intervals
            ((stops.filter (fun s => decide (s.stop_type ∈ stop_types))).filterMap
              (clipped_for window_start w_end)) := by
  obtain ⟨h1, h2⟩ := clip_merge_loop_spec window_start stop_types w_end stops
  exact ⟨h2, by rw [show (clip_merge_for window_start stops stop_types w_end).1
    = merge_intervals (clip_merge_loop window_start stop_types w_end stops).1 from rfl, h1]⟩

/-- C2: KPI derivation.  When the entity is Finalized (finalized flag set
and `end` present) the `real` values equal `max(0, ttm - stops_real)` for the
families whose entity-type set contains the entity's type (absent otherwise)
and the effective stop totals are the real-window totals; otherwise the real
values are absent and the effective stop totals are the to-date totals.  The
`to date` values equal `max(0, ttd - stops_to_date)` whenever the entity type
participates in the family, absent otherwise.  Every present KPI value is
nonnegative. -/
theorem calculate_kpi_derivation (hol : Nat → Bool) (entity : EntityInput) :
    (∀ re, entity.is_finalized = true → entity.«end» = some re →
        (calculate hol entity).sla_real_seconds
            = (if entity.entity_type ∈ SLA_ENTITY_TYPES
               then some (max 0 ((working_seconds hol entity.start re : Int)
                  - (sum_working hol
                      (clip_merge_for entity.start entity.stops SLA_STOP_TYPES re).1 : Int)))
               else none)
        ∧ (calculate hol entity).ola_real_seconds
            = (if entity.entity_type ∈ OLA_ENTITY_TYPES
               then some (max 0 ((working_seconds hol entity.start re : Int)
                  - (sum_working hol
                      (clip_merge_for entity.start entity.stops OLA_STOP_TYPES re).1 : Int)))
               else none)
        ∧ (calculate hol entity).stops_sla_seconds
            = sum_working hol (clip_merge_for entity.start entity.stops SLA_STOP_TYPES re).1
        ∧ (calculate hol entity).stops_ola_seconds
            = sum_working hol (clip_merge_for entity.start entity.stops OLA_STOP_TYPES re).1)
    ∧ (entity.is_finalized = false ∨ entity.«end» = none →
        (calculate hol entity).sla_real_seconds = none
        ∧ (calculate hol entity).ola_real_seconds = none
        ∧ (calculate hol entity).stops_sla_seconds
            = sum_working hol
                (clip_merge_for entity.start entity.stops SLA_STOP_TYPES entity.now).1
        ∧ (calculate hol entity).stops_ola_seconds
            = sum_working hol
                (clip_merge_for entity.start entity.stops OLA_STOP_TYPES entity.now).1)
    ∧ (calculate hol entity).sla_to_date_seconds
        = (if entity.entity_type ∈ SLA_ENTITY_TYPES
           then some (max 0 ((working_seconds hol entity.start entity.now : Int)
              - (sum_working hol
                  (clip_merge_for entity.start entity.stops SLA_STOP_TYPES entity.now).1 : Int)))
           else none)
    ∧ (calculate hol entity).ola_to_date_seconds
        = (if entity.entity_type ∈ OLA_ENTITY_TYPES
           then some (max 0 ((working_seconds hol entity.start entity.now : Int)
              - (sum_working hol
                  (clip_merge_for entity.start entity.stops OLA_STOP_TYPES entity.now).1 : Int)))
           else none)
    ∧ (∀ v, (calculate hol entity).sla_real_seconds = some v → 0 ≤ v)
    ∧ (∀ v, (calculate hol entity).ola_real_seconds = some v → 0 ≤ v)
    ∧ (∀ v, (calculate hol entity).sla_to_date_seconds = some v → 0 ≤ v)
    ∧ (∀ v, (calculate hol entity).ola_to_date_seconds = some v → 0 ≤ v) := by
  cases hfin : entity.is_finalized with
  | false =>
    have hsr : (calculate hol entity).sla_real_seconds = none := by
      simp [calculate, hfin]
    have hor : (calculate hol entity).ola_real_seconds = none := by
      simp [calculate, hfin]
    have hss : (calculate hol entity).stops_sla_seconds
        = sum_working hol
            (clip_merge_for entity.start entity.stops SLA_STOP_TYPES entity.now).1 := by
      simp [calculate, hfin]
    have hos : (calculate hol entity).stops_ola_seconds
        = sum_working hol
            (clip_merge_for entity.start entity.stops OLA_STOP_TYPES entity.now).1 := by
      simp [calculate, hfin]
    have hstd : (calculate hol entity).sla_to_date_seconds
        = (if entity.entity_type ∈ SLA_ENTITY_TYPES
           then some (max 0 ((working_seconds hol entity.start entity.now : Int)
              - (sum_working hol
                  (clip_merge_for entity.start entity.stops SLA_STOP_TYPES entity.now).1 : Int)))
           else none) := by
      simp [calculate, hfin]
    have hotd : (calculate hol entity).ola_to_date_seconds
        = (if entity.entity_type ∈ OLA_ENTITY_TYPES
           then some (max 0 ((working_seconds hol entity.start entity.now : Int)
              - (sum_working hol
                  (clip_merge_for entity.start entity.stops OLA_STOP_TYPES entity.now).1 : Int)))
           else none) := by
      simp [calculate, hfin]
    refine ⟨?_, fun _ => ⟨hsr, hor, hss, hos⟩, hstd, hotd, ?_, ?_, ?_, ?_⟩
    · intro re hf _
      exact Bool.noConfusion hf
    · intro v hv
      rw [hsr] at hv
      exact Option.noConfusion hv
    · intro v hv
      rw [hor] at hv
      exact Option.noConfusion hv
    · exact opt_if_max_nonneg hstd
    · exact opt_if_max_nonneg hotd
  | true =>
    cases hend : entity.«end» with
    | none =>
      have hsr : (calculate hol entity).sla_real_seconds = none := by
        simp [calculate, hfin, hend]
      have hor : (calculate hol entity).ola_real_seconds = none := by
        simp [calculate, hfin, hend]
      have hss : (calculate hol entity).stops_sla_seconds
          = sum_working hol
              (clip_merge_for entity.start entity.stops SLA_STOP_TYPES entity.now).1 := by
        simp [calculate, hfin, hend]
      have hos : (calculate hol entity).stops_ola_seconds
          = sum_working hol
              (clip_merge_for entity.start entity.stops OLA_STOP_TYPES entity.now).1 := by
        simp [calculate, hfin, hend]
      have hstd : (calculate hol entity).sla_to_date_seconds
          = (if entity.entity_type ∈ SLA_ENTITY_TYPES
             then some (max 0 ((working_seconds hol entity.start entity.now : Int)
                - (sum_working hol
                    (clip_merge_for entity.start entity.stops SLA_STOP_TYPES entity.now).1 : Int)))
             else none) := by
        simp [calculate, hfin, hend]
      have hotd : (calculate hol entity).ola_to_date_seconds
          = (if entity.entity_type ∈ OLA_ENTITY_TYPES
             then some (max 0 ((working_seconds hol entity.start entity.now : Int)
                - (sum_working hol
                    (clip_merge_for entity.start entity.stops OLA_STOP_TYPES entity.now).1 : Int)))
             else none) := by
        simp [calculate, hfin, hend]
      refine ⟨?_, fun _ => ⟨hsr, hor, hss, hos⟩, hstd, hotd, ?_, ?_, ?_, ?_⟩
      · intro re _ he
        exact Option.noConfusion he
      · intro v hv
        rw [hsr] at hv
        exact Option.noConfusion hv
      · intro v hv
        rw [hor] at hv
        exact Option.noConfusion hv
      · exact opt_if_max_nonneg hstd
      · exact opt_if_max_nonneg hotd
    | some re0 =>
      have hsr : (calculate hol entity).sla_real_seconds
          = (if entity.entity_type ∈ SLA_ENTITY_TYPES
             then some (max 0 ((working_seconds hol entity.start re0 : Int)
                - (sum_working hol
                    (clip_merge_for entity.start entity.stops SLA_STOP_TYPES re0).1 : Int)))
             else none) := by
        simp [calculate, hfin, hend]
      have hor : (calculate hol entity).ola_real_seconds
          = (if entity.entity_type ∈ OLA_ENTITY_TYPES
             then some (max 0 ((working_seconds hol entity.start re0 : Int)
                - (sum_working hol
                    (clip_merge_for entity.start entity.stops OLA_STOP_TYPES re0).1 : Int)))
             else none) := by
        simp [calculate, hfin, hend]
      have hss : (calculate hol entity).stops_sla_seconds
          = sum_working hol
              (clip_merge_for entity.start entity.stops SLA_STOP_TYPES re0).1 := by
        simp [calculate, hfin, hend]
      have hos : (calculate hol entity).stops_ola_seconds
          = sum_working hol
              (clip_merge_for entity.start entity.stops OLA_STOP_TYPES re0).1 := by
        simp [calculate, hfin, hend]
      have hstd : (calculate hol entity).sla_to_date_seconds
          = (if entity.entity_type ∈ SLA_ENTITY_TYPES
             then some (max 0 ((working_seconds hol entity.start entity.now : Int)
                - (sum_working hol
                    (clip_merge_for entity.start entity.stops SLA_STOP_TYPES entity.now).1 : Int)))
             else none) := by
        simp [calculate, hfin, hend]
      have hotd : (calculate hol entity).ola_to_date_seconds
          = (if entity.entity_type ∈ OLA_ENTITY_TYPES
             then some (max 0 ((working_seconds hol entity.start entity.now : Int)
                - (sum_working hol
                    (clip_merge_for entity.start entity.stops OLA_STOP_TYPES entity.now).1 : Int)))
             else none) := by
        simp [calculate, hfin, hend]
      refine ⟨?_, ?_, hstd, hotd, ?_, ?_, ?_, ?_⟩
      · intro re _ he
        injection he with he
        subst he
        exact ⟨hsr, hor, hss, hos⟩
      · intro hcontra
        rcases hcontra with h | h
        · exact Bool.noConfusion h
        · exact Option.noConfusion h
      · exact opt_if_max_nonneg hsr
      · exact opt_if_max_nonneg hor
      · exact opt_if_max_nonneg hstd
      · exact opt_if_max_nonneg hotd

/-- Witness for C2 at a concrete finalized SLA-family entity. -/
theorem calculate_kpi_derivation_witness :
    (⟨"PIP", 0, some 7, true, 10, []⟩ : EntityInput).is_finalized = true
    ∧ (calculate (fun _ => false) ⟨"PIP", 0, some 7, true, 10, []⟩).sla_real_seconds
        = (if (⟨"PIP", 0, some 7, true, 10, []⟩ : EntityInput).entity_type ∈ SLA_ENTITY_TYPES
           then some (max 0 ((working_seconds (fun _ => false)
                (⟨"PIP", 0, some 7, true, 10, []⟩ : EntityInput).start 7 : Int)
              - (sum_working (fun _ => false)
                  (clip_merge_for (⟨"PIP", 0, some 7, true, 10, []⟩ : EntityInput).start
                    (⟨"PIP", 0, some 7, true, 10, []⟩ : EntityInput).stops SLA_STOP_TYPES 7).1 : Int)))
           else none) :=
  ⟨rfl, ((calculate_kpi_derivation (fun _ => false) ⟨"PIP", 0, some 7, true, 10, []⟩).1
      7 rfl rfl).1⟩

/-- C8: with `is_finalized = true` but `end = None`, `calculate` does not
raise: it behaves as for an open entity — `ttm` and both real KPI values are
absent, no real-window stop processing occurs (empty real-window evidence and
merged lists, zero cost), and the effective stop totals are the to-date
totals. -/
theorem finalized_without_end_behaves_open (hol : Nat → Bool) (entity : EntityInput)
    (h1 : entity.is_finalized = true) (h2 : entity.«end» = none) :
    (calculate hol entity).ttm_seconds = none
    ∧ (calculate hol entity).sla_real_seconds = none
    ∧ (calculate hol entity).ola_real_seconds = none
    ∧ (calculate hol entity).explain.sla_real = ⟨[], [], 0⟩
    ∧ (calculate hol entity).explain.ola_real = ⟨[], [], 0⟩
    ∧ (calculate hol entity).stops_sla_seconds
        = sum_working hol
            (clip_merge_for entity.start entity.stops SLA_STOP_TYPES entity.now).1
    ∧ (calculate hol entity).stops_ola_seconds
        = sum_working hol
            (clip_merge_for entity.start entity.stops OLA_STOP_TYPES entity.now).1 := by
  refine ⟨?_, ?_, ?_, ?_, ?_, ?_, ?_⟩ <;> simp [calculate, h1, h2]

/-- Witness for C8 at a concrete malformed input. -/
theorem finalized_without_end_behaves_open_witness :
    (⟨"PIP", 0, none, true, 86400, [⟨"Global", 3600, 7200⟩]⟩ : EntityInput).is_finalized = true
    ∧ (calculate (fun _ => false)
        ⟨"PIP", 0, none, true, 86400, [⟨"Global", 3600, 7200⟩]⟩).ttm_seconds = none :=
  ⟨rfl, (finalized_without_end_behaves_open (fun _ => false)
      ⟨"PIP", 0, none, true, 86400, [⟨"Global", 3600, 7200⟩]⟩ rfl rfl).1⟩

/-- C7 counterexample: on a malformed top-level entity input (`is_finalized`
set but `end` absent) the core does NOT signal a contract violation: it
returns a complete `CalcResult`, computed as for an open entity, with
definite values in every field. -/
theorem finalized_without_end_returns_result :
    (calculate (fun _ => false)
        ⟨"PIP", 0, none, true, 86400, [⟨"Global", 3600, 7200⟩]⟩).ttd_seconds = 86400
    ∧ (calculate (fun _ => false)
        ⟨"PIP", 0, none, true, 86400, [⟨"Global", 3600, 7200⟩]⟩).ttm_seconds = none
    ∧ (calculate (fun _ => false)
        ⟨"PIP", 0, none, true, 86400, [⟨"Global", 3600, 7200⟩]⟩).stops_sla_seconds = 3600
    ∧ (calculate (fun _ => false)
        ⟨"PIP", 0, none, true, 86400, [⟨"Global", 3600, 7200⟩]⟩).sla_real_seconds = none
    ∧ (calculate (fun _ => false)
        ⟨"PIP", 0, none, true, 86400, [⟨"Global", 3600, 7200⟩]⟩).sla_to_date_seconds
        = some 82800 := by
  decide

/-- C7 (amended): on a malformed top-level entity input (`is_finalized` set,
`end` absent) the core does not fail fast; every output field of the returned
`CalcResult` other than the input snapshot inside `explain` coincides with
the result for the same entity with the finalized flag cleared. -/
theorem finalized_without_end_no_failfast (hol : Nat → Bool) (entity : EntityInput)
    (h1 : entity.is_finalized = true) (h2 : entity.«end» = none) :
    (calculate hol entity).ttd_seconds
        = (calculate hol { entity with is_finalized := false }).ttd_seconds
    ∧ (calculate hol entity).ttm_seconds
        = (calculate hol { entity with is_finalized := false }).ttm_seconds
    ∧ (calculate hol entity).stops_sla_seconds
        = (calculate hol { entity with is_finalized := false }).stops_sla_seconds
    ∧ (calculate hol entity).stops_ola_seconds
        = (calculate hol { entity with is_finalized := false }).stops_ola_seconds
    ∧ (calculate hol entity).sla_real_seconds
        = (calculate hol { entity with is_finalized := false }).sla_real_seconds
    ∧ (calculate hol entity).sla_to_date_seconds
        = (calculate hol { entity with is_finalized := false }).sla_to_date_seconds
    ∧ (calculate hol entity).ola_real_seconds
        = (calculate hol { entity with is_finalized := false }).ola_real_seconds
    ∧ (calculate hol entity).ola_to_date_seconds
        = (calculate hol { entity with is_finalized := false }).ola_to_date_seconds
    ∧ (calculate hol entity).explain.sla_real
        = (calculate hol { entity with is_finalized := false }).explain.sla_real
    ∧ (calculate hol entity).explain.ola_real
        = (calculate hol { entity with is_finalized := false }).explain.ola_real
    ∧ (calculate hol entity).explain.sla_to_date
        = (calculate hol { entity with is_finalized := false }).explain.sla_to_date
    ∧ (calculate hol entity).explain.ola_to_date
        = (calculate hol { entity with is_finalized := false }).explain.ola_to_date := by
  refine ⟨?_, ?_, ?_, ?_, ?_, ?_, ?_, ?_, ?_, ?_, ?_, ?_⟩ <;> simp [calculate, h1, h2]

/-- Witness for the amended C7 at a concrete malformed input. -/
theorem finalized_without_end_no_failfast_witness :
    (⟨"PIP", 0, none, true, 86400, []⟩ : EntityInput).«end» = none
    ∧ (calculate (fun _ => false) ⟨"PIP", 0, none, true, 86400, []⟩).ttd_seconds
        = (calculate (fun _ => false)
            { (⟨"PIP", 0, none, true, 86400, []⟩ : EntityInput) with
                is_finalized := false }).ttd_seconds :=
  ⟨rfl, (finalized_without_end_no_failfast (fun _ => false)
      ⟨"PIP", 0, none, true, 86400, []⟩ rfl rfl).1⟩

lemma working_seconds_congr (hol1 hol2 : Nat → Bool) (s e : Nat)
    (h : ∀ d, s / 86400 ≤ d → d ≤ e / 86400 → hol1 d = hol2 d) :
    working_seconds hol1 s e = working_seconds hol2 s e := by
  unfold working_seconds
  rcases le_or_lt e s with hle | hlt
  · rw [if_pos hle, if_pos hle]
  · rw [if_neg (by omega), if_neg (by omega)]
    congr 1
    apply List.map_congr_left
    intro i hi
    rw [List.mem_range] at hi
    unfold daySeg is_working_day
    rw [h (s / 86400 + i) (by omega) (by omega)]

/-- C6: the end-to-end scenario.  Entity of type `"PIP"` (SLA family only),
start Tuesday 2024-01-02 09:00, finalized end Wednesday 2024-01-03 18:00,
now Thursday 2024-01-04 10:00, one `Global` stop 2024-01-02 12:00–13:00
(timestamps in seconds from 0001-01-01; 2024-01-02 is day 738886).  Under
the hypothesis that none of the three involved days is a configured holiday:
`ttm_seconds = 118800`, `ttd_seconds = 176400`, the stop is kept as-is with
working cost 3600, `sla_real_seconds = 115200` (formatted
`"01 d 08 h 00 m"`) and `sla_to_date_seconds = 172800` (formatted
`"02 d 00 h 00 m"`). -/
theorem calculate_scenario_jan2024 (hol : Nat → Bool)
    (hday2 : hol 738886 = false) (hday3 : hol 738887 = false)
    (hday4 : hol 738888 = false) :
    (calculate hol ⟨"PIP", 738886 * 86400 + 9 * 3600,
        some (738887 * 86400 + 18 * 3600), true, 738888 * 86400 + 10 * 3600,
        [⟨"Global", 738886 * 86400 + 12 * 3600, 738886 * 86400 + 13 * 3600⟩]⟩).ttm_seconds
        = some 118800
    ∧ (calculate hol ⟨"PIP", 738886 * 86400 + 9 * 3600,
        some (738887 * 86400 + 18 * 3600), true, 738888 * 86400 + 10 * 3600,
        [⟨"Global", 738886 * 86400 + 12 * 3600, 738886 * 86400 + 13 * 3600⟩]⟩).ttd_seconds
        = 176400
    ∧ (calculate hol ⟨"PIP", 738886 * 86400 + 9 * 3600,
        some (738887 * 86400 + 18 * 3600), true, 738888 * 86400 + 10 * 3600,
        [⟨"Global", 738886 * 86400 + 12 * 3600, 738886 * 86400 + 13 * 3600⟩]⟩).explain.sla_real.evidence
        = [⟨"Global", ⟨738886 * 86400 + 12 * 3600, 738886 * 86400 + 13 * 3600⟩,
            some ⟨738886 * 86400 + 12 * 3600, 738886 * 86400 + 13 * 3600⟩,
            EvidenceAction.kept⟩]
    ∧ working_seconds hol (738886 * 86400 + 12 * 3600) (738886 * 86400 + 13 * 3600) = 3600
    ∧ (calculate hol ⟨"PIP", 738886 * 86400 + 9 * 3600,
        some (738887 * 86400 + 18 * 3600), true, 738888 * 86400 + 10 * 3600,
        [⟨"Global", 738886 * 86400 + 12 * 3600, 738886 * 86400 + 13 * 3600⟩]⟩).sla_real_seconds
        = some 115200
    ∧ fmt_duration_dhm 115200 = "01 d 08 h 00 m"
    ∧ (calculate hol ⟨"PIP", 738886 * 86400 + 9 * 3600,
        some (738887 * 86400 + 18 * 3600), true, 738888 * 86400 + 10 * 3600,
        [⟨"Global", 738886 * 86400 + 12 * 3600, 738886 * 86400 + 13 * 3600⟩]⟩).sla_to_date_seconds
        = some 172800
    ∧ fmt_duration_dhm 172800 = "02 d 00 h 00 m" := by
  have hagree : ∀ s e : Nat, 738886 ≤ s / 86400 → e / 86400 ≤ 738888 →
      working_seconds hol s e = working_seconds (fun _ => false) s e := by
    intro s e hs he
    apply working_seconds_congr
    intro d hd1 hd2
    have hd3 : 738886 ≤ d := le_trans hs hd1
    have hd4 : d ≤ 738888 := le_trans hd2 he
    interval_cases d
    · rw [hday2]
    · rw [hday3]
    · rw [hday4]
  have w1 : working_seconds hol (738886 * 86400 + 9 * 3600)
      (738887 * 86400 + 18 * 3600) = 118800 := by
    rw [hagree _ _ (by decide) (by decide)]
    decide
  have w2 : working_seconds hol (738886 * 86400 + 9 * 3600)
      (738888 * 86400 + 10 * 3600) = 176400 := by
    rw [hagree _ _ (by decide) (by decide)]
    decide
  have w3 : working_seconds hol (738886 * 86400 + 12 * 3600)
      (738886 * 86400 + 13 * 3600) = 3600 := by
    rw [hagree _ _ (by decide) (by decide)]
    decide
  have hc1 : clip_merge_for (738886 * 86400 + 9 * 3600)
      [⟨"Global", 738886 * 86400 + 12 * 3600, 738886 * 86400 + 13 * 3600⟩]
      SLA_STOP_TYPES (738887 * 86400 + 18 * 3600)
      = ([⟨738886 * 86400 + 12 * 3600, 738886 * 86400 + 13 * 3600⟩],
         [⟨"Global", ⟨738886 * 86400 + 12 * 3600, 738886 * 86400 + 13 * 3600⟩,
            some ⟨738886 * 86400 + 12 * 3600, 738886 * 86400 + 13 * 3600⟩,
            EvidenceAction.kept⟩]) := by
    decide
  have hc2 : clip_merge_for (738886 * 86400 + 9 * 3600)
      [⟨"Global", 738886 * 86400 + 12 * 3600, 738886 * 86400 + 13 * 3600⟩]
      OLA_STOP_TYPES (738887 * 86400 + 18 * 3600)
      = ([⟨738886 * 86400 + 12 * 3600, 738886 * 86400 + 13 * 3600⟩],
         [⟨"Global", ⟨738886 * 86400 + 12 * 3600, 738886 * 86400 + 13 * 3600⟩,
            some ⟨738886 * 86400 + 12 * 3600, 738886 * 86400 + 13 * 3600⟩,
            EvidenceAction.kept⟩]) := by
    decide
  have hc3 : clip_merge_for (738886 * 86400 + 9 * 3600)
      [⟨"Global", 738886 * 86400 + 12 * 3600, 738886 * 86400 + 13 * 3600⟩]
      SLA_STOP_TYPES (738888 * 86400 + 10 * 3600)
      = ([⟨738886 * 86400 + 12 * 3600, 738886 * 86400 + 13 * 3600⟩],
         [⟨"Global", ⟨738886 * 86400 + 12 * 3600, 738886 * 86400 + 13 * 3600⟩,
            some ⟨738886 * 86400 + 12 * 3600, 738886 * 86400 + 13 * 3600⟩,
            EvidenceAction.kept⟩]) := by
    decide
  have hc4 : clip_merge_for (738886 * 86400 + 9 * 3600)
      [⟨"Global", 738886 * 86400 + 12 * 3600, 738886 * 86400 + 13 * 3600⟩]
      OLA_STOP_TYPES (738888 * 86400 + 10 * 3600)
      = ([⟨738886 * 86400 + 12 * 3600, 738886 * 86400 + 13 * 3600⟩],
         [⟨"Global", ⟨738886 * 86400 + 12 * 3600, 738886 * 86400 + 13 * 3600⟩,
            some ⟨738886 * 86400 + 12 * 3600, 738886 * 86400 + 13 * 3600⟩,
            EvidenceAction.kept⟩]) := by
    decide
  refine ⟨?_, ?_, ?_, w3, ?_, by decide, ?_, by decide⟩
  · simp only [calculate, hc1, hc2, hc3, hc4, sum_working, List.map_cons, List.map_nil,
      List.sum_cons, List.sum_nil, Option.isSome_some, if_true]
    rw [w1]
  · simp only [calculate, hc1, hc2, hc3, hc4, sum_working, List.map_cons, List.map_nil,
      List.sum_cons, List.sum_nil, Option.isSome_some, if_true]
    rw [w2]
  · simp only [calculate, hc1, hc2, hc3, hc4, sum_working, List.map_cons, List.map_nil,
      List.sum_cons, List.sum_nil, Option.isSome_some, if_true]
  · simp only [calculate, hc1, hc2, hc3, hc4, sum_working, List.map_cons, List.map_nil,
      List.sum_cons, List.sum_nil, Option.isSome_some, if_true]
    rw [w1, w3]
    decide
  · simp only [calculate, hc1, hc2, hc3, hc4, sum_working, List.map_cons, List.map_nil,
      List.sum_cons, List.sum_nil, Option.isSome_some, if_true]
    rw [w2, w3]
    decide

/-- Witness for C6: the hypotheses hold for the all-false holiday predicate,
under which the scenario's first conclusion evaluates as stated. -/
theorem calculate_scenario_jan2024_witness :
    ((fun _ => false) : Nat → Bool) 738886 = false
    ∧ (calculate (fun _ => false) ⟨"PIP", 738886 * 86400 + 9 * 3600,
        some (738887 * 86400 + 18 * 3600), true, 738888 * 86400 + 10 * 3600,
        [⟨"Global", 738886 * 86400 + 12 * 3600,
          738886 * 86400 + 13 * 3600⟩]⟩).ttm_seconds = some 118800 :=
  ⟨rfl, (calculate_scenario_jan2024 (fun _ => false) rfl rfl rfl).1⟩

end KpiCalc
